import Mathlib

/-!
Verification of the pdns-webhook translation engine.

This file gives a shallow embedding of the engine's pure core: record
normalisation, zone resolution, the Endpoint/RRset codec, the catalog read
path and ordered batch change application.  DNS names and record contents are
modelled as lists of characters; the zone backend is modelled by two oracles,
one for zone existence and one for PATCH acceptance, while the HTTP transport
itself is out of scope.  Theorems at the end of the file settle the
specification's claims about this core.
-/

/-- A character string, modelled as its list of characters. -/
abbrev Str : Type := List Char

def strOf (s : String) : Str := s.data

/-- The whitespace characters recognised by trimming (the source trims
Unicode whitespace; the inputs of interest here are ASCII). -/
def isWhite (c : Char) : Bool := c = ' ' || c = '\t' || c = '\n' || c = '\r'

/-- Rust `str::trim`: drop whitespace from both ends. -/
def trimStr (s : Str) : Str := ((s.dropWhile isWhite).reverse.dropWhile isWhite).reverse

/-- Rust `trim_end_matches` with a dot: drop every trailing dot. -/
def trimEndDots (s : Str) : Str := (s.reverse.dropWhile (fun c => c = '.')).reverse

/-- Rust `ends_with` with a dot. -/
def endsWithDot (s : Str) : Bool :=
  match s.reverse with
  | [] => false
  | c :: _ => c == '.'

/-- Everything before the first occurrence of `sep`, plus the remainder after
it (`none` when `sep` does not occur).  One step of Rust splitting. -/
def breakChar (sep : Char) : Str → Str × Option Str
  | [] => ([], none)
  | c :: rest =>
    if c = sep then ([], some rest)
    else
      let r := breakChar sep rest
      (c :: r.1, r.2)

/-- Rust `s.splitn(3, ' ')`: at most three fields, the last keeps the rest. -/
def splitn3 (s : Str) : List Str :=
  match breakChar ' ' s with
  | (a, none) => [a]
  | (a, some r1) =>
    match breakChar ' ' r1 with
    | (b, none) => [a, b]
    | (b, some r2) => [a, b, r2]

def splitDotGo (acc : Str) : Str → List Str
  | [] => [acc.reverse]
  | c :: rest => if c = '.' then acc.reverse :: splitDotGo [] rest else splitDotGo (c :: acc) rest

/-- Rust `s.split('.')`: keeps empty fields; the empty string yields one
empty field. -/
def splitDot (s : Str) : List Str := splitDotGo [] s

/-- Rust `labels.join(".")`. -/
def joinDots : List Str → Str
  | [] => []
  | [x] => x
  | x :: rest => x ++ '.' :: joinDots rest

def digitsVal (s : Str) : Nat := s.foldl (fun a c => a * 10 + (c.toNat - 48)) 0

/-- Rust `str::parse::<u16>().is_ok()`: an optional leading plus sign, then
one or more ASCII digits, with value at most 65535. -/
def parseU16Ok (s : Str) : Bool :=
  let ds := match s with
    | '+' :: r => r
    | _ => s
  (!ds.isEmpty) && ds.all (fun c => c.isDigit) && decide (digitsVal ds ≤ 65535)

/-- `dns.rs`: a provider-specific property attached to an endpoint. -/
structure ProviderSpecific where
  name : Str
  value : Str
deriving DecidableEq

/-- `dns.rs`: one DNS endpoint of the webhook contract.  The label map is
modelled as an association list. -/
structure Endpoint where
  dns_name : Str
  record_type : Str
  targets : List Str
  record_ttl : Nat
  labels : List (Str × Str)
  provider_specific : List ProviderSpecific
  set_identifier : Str
deriving DecidableEq

/-- `pdns.rs`: one record of an RRset. -/
structure Record where
  content : Str
  disabled : Bool
deriving DecidableEq

/-- `pdns.rs`: the backend RRset shape.  The comments field only ever carries
unused JSON values, modelled as units. -/
structure RrSet where
  name : Str
  rrtype : Str
  ttl : Nat
  records : List Record
  changetype : Option Str
  comments : List Unit
deriving DecidableEq

/-- `pdns.rs`: a zone as fetched from the backend. -/
structure Zone where
  rrsets : List RrSet
deriving DecidableEq

/-- `dns.rs`: the POST /records payload. -/
structure Changes where
  create : List Endpoint
  update_old : List Endpoint
  update_new : List Endpoint
  delete : List Endpoint
deriving DecidableEq

namespace Pdns

/-- `pdns.rs` `ensure_fqdn`: append a trailing dot when absent. -/
def ensure_fqdn (name : Str) : Str :=
  if endsWithDot name then name else name ++ ['.']

/-- `pdns.rs` `normalise_https_target`: format an HTTPS SvcParam string,
ensuring a numeric SvcPriority is present and the TargetName ends with a
dot.  Mirrors the source: split the trimmed input into at most three
space-separated fields; when there are at least two fields and the first
parses as a u16, keep the priority, dot-terminate the second field and pass
any params through; otherwise strip trailing dots from the whole trimmed
input and wrap it as priority 1. -/
def normalise_https_target (target : Str) : Str :=
  match splitn3 (trimStr target) with
  | [p, q] =>
    if parseU16Ok p then p ++ ' ' :: ensure_fqdn q
    else '1' :: ' ' :: (trimEndDots (trimStr target) ++ ['.'])
  | [p, q, r] =>
    if parseU16Ok p then p ++ ' ' :: (ensure_fqdn q ++ ' ' :: r)
    else '1' :: ' ' :: (trimEndDots (trimStr target) ++ ['.'])
  | _ => '1' :: ' ' :: (trimEndDots (trimStr target) ++ ['.'])

/-- `pdns.rs` `normalise_target`: per record type wire-format normalisation.
A/AAAA and TXT pass through, HTTPS goes through SvcParam formatting, every
other (name-valued) type gets a trailing dot. -/
def normalise_target (record_type : Str) (target : Str) : Str :=
  if record_type = strOf "A" ∨ record_type = strOf "AAAA" then target
  else if record_type = strOf "TXT" then target
  else if record_type = strOf "HTTPS" then normalise_https_target target
  else ensure_fqdn target

/-- `pdns.rs` `build_rrset`: endpoint to RRset conversion for writes. -/
def build_rrset (ep : Endpoint) (default_ttl : Nat) (changetype : Str) : RrSet :=
  { name := ensure_fqdn ep.dns_name
    rrtype := ep.record_type
    ttl := if 0 < ep.record_ttl then ep.record_ttl else default_ttl
    records := ep.targets.map (fun t => { content := normalise_target ep.record_type t, disabled := false })
    changetype := some changetype
    comments := [] }

/-- The index list of the zone-walk loop `for i in 1..n`. -/
def loopRange : Nat → Nat → List Nat
  | _, 0 => []
  | s, k + 1 => s :: loopRange (s + 1) k

/-- `pdns.rs` `zone_for`: strip trailing dots, split into labels, and for
each `i` from 1 up to the label count (exclusive) try the zone whose name is
the labels from `i` on, joined with dots plus a trailing dot; return the
first candidate the backend knows, `none` when no candidate exists.  The
backend zone lookup is the oracle `zones`. -/
def zone_for (zones : Str → Bool) (fqdn : Str) : Option Str :=
  let labels := splitDot (trimEndDots fqdn)
  ((loopRange 1 (labels.length - 1)).map
      (fun i => joinDots (labels.drop i) ++ ['.'])).find? zones

/-- `pdns.rs` `list_endpoints`: the record types surfaced by the catalog. -/
def MANAGED_TYPES : List Str :=
  [strOf "A", strOf "AAAA", strOf "CNAME", strOf "TXT", strOf "HTTPS"]

/-- The per-RRset body of the `list_endpoints` loop: skip unmanaged types,
skip names excluded by a non-empty domain filter (plain suffix match on the
dot-stripped name), collect the contents of non-disabled records, and skip
the RRset entirely when none remain. -/
def rrsetEndpoint (domain_filter : List Str) (r : RrSet) : Option Endpoint :=
  if !(MANAGED_TYPES.contains r.rrtype) then none else
  let name := trimEndDots r.name
  if !domain_filter.isEmpty && !(domain_filter.any (fun d => d.isSuffixOf name)) then none else
  let targets := (r.records.filter (fun rec => !rec.disabled)).map (fun rec => rec.content)
  if targets.isEmpty then none else
  some { dns_name := name, record_type := r.rrtype, targets := targets,
         record_ttl := r.ttl, labels := [], provider_specific := [], set_identifier := [] }

/-- `pdns.rs` `list_endpoints`: iterate over the fetched zones (a `none`
entry is a zone whose fetch failed and is skipped) and collect the managed
endpoints of each. -/
def list_endpoints (fetched : List (Option Zone)) (domain_filter : List Str) : List Endpoint :=
  fetched.flatMap (fun oz =>
    match oz with
    | none => []
    | some z => z.rrsets.filterMap (rrsetEndpoint domain_filter))

/-- The single RRset sent by `pdns.rs` `delete`: the FQDN-ensured name, the
endpoint's type, an empty record list and changetype DELETE. -/
def deleteRrset (ep : Endpoint) : RrSet :=
  { name := ensure_fqdn ep.dns_name, rrtype := ep.record_type, ttl := 0,
    records := [], changetype := some (strOf "DELETE"), comments := [] }

/-- The mutation-visible backend state: the PATCH requests issued so far, in
order, each carrying the target zone and the RRset list of its body. -/
structure WriteState where
  patches : List (Str × List RrSet)
deriving DecidableEq

/-- `pdns.rs` `patch_zone`: issue one PATCH; the oracle `patchOk` decides
whether the backend accepts it. -/
def patch_zone (patchOk : Str → List RrSet → Bool) (zone : Str) (rrsets : List RrSet)
    (s : WriteState) : WriteState × Bool :=
  ({ patches := s.patches ++ [(zone, rrsets)] }, patchOk zone rrsets)

/-- `pdns.rs` `upsert`: resolve the zone, then PATCH a single REPLACE RRset
built from the endpoint.  Zone-resolution failure issues no PATCH. -/
def upsert (zones : Str → Bool) (patchOk : Str → List RrSet → Bool) (ep : Endpoint)
    (default_ttl : Nat) (s : WriteState) : WriteState × Bool :=
  match zone_for zones ep.dns_name with
  | none => (s, false)
  | some zone => patch_zone patchOk zone [build_rrset ep default_ttl (strOf "REPLACE")] s

/-- `pdns.rs` `delete`: resolve the zone, then PATCH a single DELETE RRset
with no records.  Zone-resolution failure issues no PATCH. -/
def delete (zones : Str → Bool) (patchOk : Str → List RrSet → Bool) (ep : Endpoint)
    (s : WriteState) : WriteState × Bool :=
  match zone_for zones ep.dns_name with
  | none => (s, false)
  | some zone => patch_zone patchOk zone [deleteRrset ep] s

end Pdns

/-- Which backend operation a changeset entry is realised by. -/
inductive OpKind
  | del
  | ups
deriving DecidableEq

namespace Handlers

/-- `handlers.rs`: the provider-specific key consulted for HTTPS targets. -/
def HTTPS_TARGET_ANNOTATION : Str := strOf "webhook/pdns-https-target"

/-- `handlers.rs` `find_provider_specific`: first entry with the given name. -/
def find_provider_specific (ep : Endpoint) (key : Str) : Option Str :=
  (ep.provider_specific.find? (fun p => p.name == key)).map (fun p => p.value)

/-- `handlers.rs` `validate_https_target`: accept a fully-formed
`priority target [params]` string as is; prepend priority 1 when the first
field is not numeric; wrap a single numeric field as `1 . value`. -/
def validate_https_target (value : Str) (dns_name : Str) : Str :=
  let _ := dns_name
  let trimmed := trimStr value
  match splitn3 trimmed with
  | p :: _ :: _ => if parseU16Ok p then trimmed else '1' :: ' ' :: trimmed
  | [p] => if parseU16Ok p then '1' :: ' ' :: '.' :: ' ' :: trimmed else '1' :: ' ' :: trimmed
  | [] => '1' :: ' ' :: '.' :: ' ' :: trimmed

/-- `handlers.rs` `normalise_https_target`: ensure a leading SvcPriority on a
target that did not come from the provider-specific entry: keep the trimmed
value when its first whitespace-separated token is numeric, else prepend 1. -/
def normalise_https_target (target : Str) (dns_name : Str) : Str :=
  let _ := dns_name
  let t := trimStr target
  let first := ((t.dropWhile isWhite).takeWhile (fun c => !isWhite c))
  if parseU16Ok first then t else '1' :: ' ' :: t

/-- The per-endpoint body of the `adjust_endpoints` loop: non-HTTPS
endpoints pass through; an HTTPS endpoint's targets are replaced by the
validated provider-specific value when present, otherwise each existing
target gets the leading-SvcPriority treatment, and an HTTPS endpoint with
neither is left untouched. -/
def adjustEndpoint (ep : Endpoint) : Endpoint :=
  if ep.record_type ≠ strOf "HTTPS" then ep
  else
    match find_provider_specific ep HTTPS_TARGET_ANNOTATION with
    | some v => { ep with targets := [validate_https_target v ep.dns_name] }
    | none =>
      if ep.targets.isEmpty then ep
      else { ep with targets := ep.targets.map (fun t => normalise_https_target t ep.dns_name) }

/-- `handlers.rs` `adjust_endpoints`: rewrite each endpoint in place. -/
def adjust_endpoints (endpoints : List Endpoint) : List Endpoint :=
  endpoints.map adjustEndpoint

/-- One loop of `handlers.rs` `apply_changes`: run the given backend
operation on each endpoint in order, recording which entries were processed,
and stop at the first failure. -/
def applyLoop (op : Endpoint → Pdns.WriteState → Pdns.WriteState × Bool) (k : OpKind) :
    Pdns.WriteState → List Endpoint → Pdns.WriteState × List (OpKind × Endpoint) × Bool
  | s, [] => (s, [], true)
  | s, ep :: rest =>
    let r := op ep s
    if r.2 then
      let r2 := applyLoop op k r.1 rest
      (r2.1, (k, ep) :: r2.2.1, r2.2.2)
    else (r.1, [(k, ep)], false)

/-- `handlers.rs` `apply_changes`: the four loops in their fixed order
delete, updateOld, updateNew, create, each entry realised by `Pdns.delete`
or `Pdns.upsert`, with an early return (the single 502 error, modelled as a
false flag) at the first failing entry.  Alongside the backend state the
model returns the entries processed, in order. -/
def apply_changes (zones : Str → Bool) (patchOk : Str → List RrSet → Bool) (ttl : Nat)
    (chs : Changes) : Pdns.WriteState × List (OpKind × Endpoint) × Bool :=
  let r1 := applyLoop (Pdns.delete zones patchOk) OpKind.del { patches := [] } chs.delete
  if r1.2.2 then
    let r2 := applyLoop (Pdns.delete zones patchOk) OpKind.del r1.1 chs.update_old
    if r2.2.2 then
      let r3 := applyLoop (fun ep s => Pdns.upsert zones patchOk ep ttl s) OpKind.ups r2.1 chs.update_new
      if r3.2.2 then
        let r4 := applyLoop (fun ep s => Pdns.upsert zones patchOk ep ttl s) OpKind.ups r3.1 chs.create
        (r4.1, r1.2.1 ++ (r2.2.1 ++ (r3.2.1 ++ r4.2.1)), r4.2.2)
      else (r3.1, r1.2.1 ++ (r2.2.1 ++ r3.2.1), false)
    else (r2.1, r1.2.1 ++ r2.2.1, false)
  else (r1.1, r1.2.1, false)

/-- The full batch in processing order: delete, updateOld, updateNew,
create, tagged with the backend operation each list is realised by. -/
def planned (chs : Changes) : List (OpKind × Endpoint) :=
  chs.delete.map (fun e => (OpKind.del, e)) ++
    (chs.update_old.map (fun e => (OpKind.del, e)) ++
      (chs.update_new.map (fun e => (OpKind.ups, e)) ++
        chs.create.map (fun e => (OpKind.ups, e))))

/-- The RRset list of the single PATCH an entry sends once its zone is
resolved. -/
def entryRrsets (ttl : Nat) : OpKind × Endpoint → List RrSet
  | (OpKind.del, ep) => [Pdns.deleteRrset ep]
  | (OpKind.ups, ep) => [Pdns.build_rrset ep ttl (strOf "REPLACE")]

/-- The PATCH requests one entry issues: none when zone resolution fails,
otherwise exactly one, carrying exactly one RRset. -/
def entryPatches (zones : Str → Bool) (ttl : Nat) (e : OpKind × Endpoint) :
    List (Str × List RrSet) :=
  match Pdns.zone_for zones e.2.dns_name with
  | none => []
  | some z => [(z, entryRrsets ttl e)]

/-- Whether an entry succeeds: its zone resolves and the backend accepts its
PATCH.  Success is independent of the backend state. -/
def entryOk (zones : Str → Bool) (patchOk : Str → List RrSet → Bool) (ttl : Nat)
    (e : OpKind × Endpoint) : Bool :=
  match Pdns.zone_for zones e.2.dns_name with
  | none => false
  | some z => patchOk z (entryRrsets ttl e)

/-- The backend operation of one entry. -/
def entryOp (zones : Str → Bool) (patchOk : Str → List RrSet → Bool) (ttl : Nat) :
    OpKind × Endpoint → Pdns.WriteState → Pdns.WriteState × Bool
  | (OpKind.del, ep) => Pdns.delete zones patchOk ep
  | (OpKind.ups, ep) => fun s => Pdns.upsert zones patchOk ep ttl s

/-- The whole batch as one fold over its entries, stopping at the first
failure. -/
def runEntries (zones : Str → Bool) (patchOk : Str → List RrSet → Bool) (ttl : Nat) :
    Pdns.WriteState → List (OpKind × Endpoint) →
      Pdns.WriteState × List (OpKind × Endpoint) × Bool
  | s, [] => (s, [], true)
  | s, e :: rest =>
    let r := entryOp zones patchOk ttl e s
    if r.2 then
      let r2 := runEntries zones patchOk ttl r.1 rest
      (r2.1, e :: r2.2.1, r2.2.2)
    else (r.1, [e], false)

end Handlers

-- Concrete data used by witnesses and counterexamples.

/-- The two-zone backend of the §8 walk example. -/
def zonesExample : Str → Bool := fun z => z == strOf "example.com." || z == strOf "com."

/-- An HTTPS endpoint whose provider-specific entry is named with the bare
key `pdns-https-target` (missing the leading `webhook/` the code looks up). -/
def epBareKey : Endpoint :=
  { dns_name := strOf "www.example.com", record_type := strOf "HTTPS",
    targets := [strOf "x"], record_ttl := 0, labels := [],
    provider_specific := [{ name := strOf "pdns-https-target", value := strOf "1 . alpn=h2" }],
    set_identifier := [] }

/-- The endpoint of the C2 witness: the same HTTPS endpoint with the key the
code actually matches on. -/
def epWebhookKey : Endpoint :=
  { dns_name := strOf "www.example.com", record_type := strOf "HTTPS",
    targets := [strOf "x"], record_ttl := 0, labels := [],
    provider_specific :=
      [{ name := strOf "webhook/pdns-https-target", value := strOf "1 . alpn=h2" }],
    set_identifier := [] }

/-- A single-label endpoint: its zone resolution always fails. -/
def epSingleLabel : Endpoint :=
  { dns_name := strOf "x", record_type := strOf "A", targets := [strOf "1.2.3.4"],
    record_ttl := 0, labels := [], provider_specific := [], set_identifier := [] }

/-- An endpoint under the `example.com.` zone of `zonesExample`. -/
def epCreateY : Endpoint :=
  { dns_name := strOf "y.example.com", record_type := strOf "A", targets := [strOf "5.6.7.8"],
    record_ttl := 0, labels := [], provider_specific := [], set_identifier := [] }

/-- A changeset whose delete entry cannot resolve a zone while its create
entry could. -/
def chsFail : Changes :=
  { create := [epCreateY], update_old := [], update_new := [], delete := [epSingleLabel] }

-- ───────────────────────────────────────────────────────────────────────────
-- General lemmas about the string helpers
-- ───────────────────────────────────────────────────────────────────────────

theorem mem_of_mem_dropWhile {p : Char → Bool} {l : Str} {a : Char}
    (h : a ∈ l.dropWhile p) : a ∈ l := by
  induction l with
  | nil => simp at h
  | cons c rest ih =>
    rw [List.dropWhile_cons] at h
    by_cases hc : p c = true
    · rw [if_pos hc] at h
      exact List.mem_cons_of_mem _ (ih h)
    · rw [if_neg hc] at h
      exact h

theorem not_mem_trimEndDots {a : Char} {l : Str} (h : a ∉ l) : a ∉ trimEndDots l := by
  intro hmem
  apply h
  unfold trimEndDots at hmem
  rw [List.mem_reverse] at hmem
  have h2 := mem_of_mem_dropWhile hmem
  rw [List.mem_reverse] at h2
  exact h2

theorem breakChar_of_not_mem {sep : Char} {l : Str} (h : sep ∉ l) :
    breakChar sep l = (l, none) := by
  induction l with
  | nil => rfl
  | cons c rest ih =>
    have hc : ¬ c = sep := by
      intro e
      exact h (by rw [← e]; exact List.mem_cons_self c rest)
    have hr : sep ∉ rest := fun hm => h (List.mem_cons_of_mem _ hm)
    simp [breakChar, hc, ih hr]

theorem splitn3_of_not_mem {l : Str} (h : (' ' : Char) ∉ l) : splitn3 l = [l] := by
  simp [splitn3, breakChar_of_not_mem h]

theorem trimStr_of_trimmed {l : Str} (h1 : List.dropWhile isWhite l = l)
    (h2 : List.dropWhile isWhite l.reverse = l.reverse) : trimStr l = l := by
  unfold trimStr
  rw [h1, h2, List.reverse_reverse]

theorem endsWithDot_append_dot (l : Str) : endsWithDot (l ++ ['.']) = true := by
  simp [endsWithDot, List.reverse_append]

theorem ensure_fqdn_append_dot (l : Str) : Pdns.ensure_fqdn (l ++ ['.']) = l ++ ['.'] := by
  simp [Pdns.ensure_fqdn, endsWithDot_append_dot]

theorem endsWithDot_ensure_fqdn (l : Str) : endsWithDot (Pdns.ensure_fqdn l) = true := by
  unfold Pdns.ensure_fqdn
  by_cases h : endsWithDot l = true
  · rw [if_pos h]; exact h
  · rw [if_neg h]; exact endsWithDot_append_dot l

theorem ensure_fqdn_of_not_dot {l : Str} (h : endsWithDot l = false) :
    Pdns.ensure_fqdn l = l ++ ['.'] := by
  simp [Pdns.ensure_fqdn, h]

theorem ensure_fqdn_of_dot {l : Str} (h : endsWithDot l = true) :
    Pdns.ensure_fqdn l = l := by
  simp [Pdns.ensure_fqdn, h]

-- Unfolding lemmas for the write-time HTTPS normalisation.

theorem normalise_https_eq_wrap {s : Str} (h : splitn3 (trimStr s) = [trimStr s]) :
    Pdns.normalise_https_target s = '1' :: ' ' :: (trimEndDots (trimStr s) ++ ['.']) := by
  unfold Pdns.normalise_https_target
  rw [h]

theorem normalise_https_eq_pair {s p q : Str} (h : splitn3 (trimStr s) = [p, q])
    (hp : parseU16Ok p = true) :
    Pdns.normalise_https_target s = p ++ ' ' :: Pdns.ensure_fqdn q := by
  unfold Pdns.normalise_https_target
  rw [h]
  exact if_pos hp

-- ───────────────────────────────────────────────────────────────────────────
-- C1: idempotence of the write-time HTTPS normalisation
-- ───────────────────────────────────────────────────────────────────────────

/-- C1: counterexample — the write-time HTTPS/SVCB normalisation is not
idempotent on every input string: for the input `a b` the first pass yields
`1 a b.` and the second pass dot-terminates the middle field, yielding
`1 a. b.`. -/
theorem normalise_https_target_not_idempotent :
    ¬ (Pdns.normalise_https_target (Pdns.normalise_https_target (strOf "a b"))
        = Pdns.normalise_https_target (strOf "a b")) := by decide

/-- C1 (amended): the write-time HTTPS/SVCB normalisation is idempotent on
every input whose trimmed form contains no space character (in particular on
every bare hostname); re-normalising such an input's normalised form yields
the same string. -/
theorem normalise_https_target_idempotent_spaceless (s : Str)
    (h : (' ' : Char) ∉ trimStr s) :
    Pdns.normalise_https_target (Pdns.normalise_https_target s)
      = Pdns.normalise_https_target s := by
  have e1 : Pdns.normalise_https_target s
      = '1' :: ' ' :: (trimEndDots (trimStr s) ++ ['.']) :=
    normalise_https_eq_wrap (splitn3_of_not_mem h)
  have hu : (' ' : Char) ∉ trimEndDots (trimStr s) := not_mem_trimEndDots h
  have hu2 : (' ' : Char) ∉ trimEndDots (trimStr s) ++ ['.'] := by
    intro hmem
    rcases List.mem_append.mp hmem with h1 | h2
    · exact hu h1
    · simp at h2
  have d1 : List.dropWhile isWhite ('1' :: ' ' :: (trimEndDots (trimStr s) ++ ['.']))
      = '1' :: ' ' :: (trimEndDots (trimStr s) ++ ['.']) := by
    rw [List.dropWhile_cons, if_neg (by decide)]
  have hrev : ('1' :: ' ' :: (trimEndDots (trimStr s) ++ ['.'])).reverse
      = '.' :: ((trimEndDots (trimStr s)).reverse ++ [' ', '1']) := by
    simp
  have d2 : List.dropWhile isWhite ('.' :: ((trimEndDots (trimStr s)).reverse ++ [' ', '1']))
      = '.' :: ((trimEndDots (trimStr s)).reverse ++ [' ', '1']) := by
    rw [List.dropWhile_cons, if_neg (by decide)]
  have htrim : trimStr ('1' :: ' ' :: (trimEndDots (trimStr s) ++ ['.']))
      = '1' :: ' ' :: (trimEndDots (trimStr s) ++ ['.']) := by
    apply trimStr_of_trimmed d1
    rw [hrev]
    exact d2
  have hb1 : breakChar ' ' ('1' :: ' ' :: (trimEndDots (trimStr s) ++ ['.']))
      = (['1'], some (trimEndDots (trimStr s) ++ ['.'])) := by
    simp [breakChar]
  have hsplit : splitn3 ('1' :: ' ' :: (trimEndDots (trimStr s) ++ ['.']))
      = [['1'], trimEndDots (trimStr s) ++ ['.']] := by
    simp [splitn3, hb1, breakChar_of_not_mem hu2]
  have e2 : Pdns.normalise_https_target ('1' :: ' ' :: (trimEndDots (trimStr s) ++ ['.']))
      = ['1'] ++ ' ' :: Pdns.ensure_fqdn (trimEndDots (trimStr s) ++ ['.']) := by
    apply normalise_https_eq_pair
    · rw [htrim]; exact hsplit
    · decide
  rw [e1, e2, ensure_fqdn_append_dot]
  rfl

/-- C1 witness: the amended idempotence theorem at the concrete bare
hostname `lb.domain.com`. -/
theorem normalise_https_target_idempotent_spaceless_witness :
    Pdns.normalise_https_target (Pdns.normalise_https_target (strOf "lb.domain.com"))
      = Pdns.normalise_https_target (strOf "lb.domain.com") :=
  normalise_https_target_idempotent_spaceless (strOf "lb.domain.com") (by decide)

-- ───────────────────────────────────────────────────────────────────────────
-- C6: endpoint to RRset conversion
-- ───────────────────────────────────────────────────────────────────────────

/-- C6: the endpoint-to-RRset conversion keeps the endpoint's TTL when it is
nonzero and falls back to the default TTL otherwise, ensures a trailing dot
on the name, converts each target in order through the per-type normaliser
with disabled set to false, and stamps the given change type. -/
theorem build_rrset_fields (ep : Endpoint) (default_ttl : Nat) (ct : Str) :
    (Pdns.build_rrset ep default_ttl ct).ttl
        = (if 0 < ep.record_ttl then ep.record_ttl else default_ttl)
      ∧ (Pdns.build_rrset ep default_ttl ct).name = Pdns.ensure_fqdn ep.dns_name
      ∧ (Pdns.build_rrset ep default_ttl ct).rrtype = ep.record_type
      ∧ (Pdns.build_rrset ep default_ttl ct).records
        = ep.targets.map (fun t =>
            { content := Pdns.normalise_target ep.record_type t, disabled := false })
      ∧ (Pdns.build_rrset ep default_ttl ct).changetype = some ct :=
  ⟨rfl, rfl, rfl, rfl, rfl⟩

-- ───────────────────────────────────────────────────────────────────────────
-- C7: the per-type target normaliser
-- ───────────────────────────────────────────────────────────────────────────

/-- C7: the write-time target normaliser is the identity on A, AAAA and TXT
targets; on every other record type except HTTPS (CNAME, MX, NS, PTR, SRV,
ALIAS and anything unrecognised) it ensures a trailing dot, appending one
exactly when the input lacks it, so its result always ends with a dot. -/
theorem normalise_target_cases (rt t : Str) :
    ((rt = strOf "A" ∨ rt = strOf "AAAA" ∨ rt = strOf "TXT") →
        Pdns.normalise_target rt t = t)
      ∧ (rt ≠ strOf "A" → rt ≠ strOf "AAAA" → rt ≠ strOf "TXT" → rt ≠ strOf "HTTPS" →
          Pdns.normalise_target rt t = Pdns.ensure_fqdn t
            ∧ endsWithDot (Pdns.normalise_target rt t) = true
            ∧ (endsWithDot t = false → Pdns.normalise_target rt t = t ++ ['.'])
            ∧ (endsWithDot t = true → Pdns.normalise_target rt t = t)) := by
  constructor
  · intro h
    rcases h with h | h | h
    · simp [Pdns.normalise_target, h]
    · simp [Pdns.normalise_target, h]
    · have hne : ¬ (rt = strOf "A" ∨ rt = strOf "AAAA") := by
        rw [h]; decide
      simp [Pdns.normalise_target, hne, h]
  · intro h1 h2 h3 h4
    have hne : ¬ (rt = strOf "A" ∨ rt = strOf "AAAA") := by
      intro hc
      rcases hc with hc | hc
      · exact h1 hc
      · exact h2 hc
    have he : Pdns.normalise_target rt t = Pdns.ensure_fqdn t := by
      simp [Pdns.normalise_target, hne, h3, h4]
    refine ⟨he, ?_, ?_, ?_⟩
    · rw [he]; exact endsWithDot_ensure_fqdn t
    · intro hd; rw [he]; exact ensure_fqdn_of_not_dot hd
    · intro hd; rw [he]; exact ensure_fqdn_of_dot hd

-- ───────────────────────────────────────────────────────────────────────────
-- C5 / C8: the catalog read path
-- ───────────────────────────────────────────────────────────────────────────

/-- The catalog's per-RRset step, written out as its three guards. -/
theorem rrsetEndpoint_eq (df : List Str) (r : RrSet) :
    Pdns.rrsetEndpoint df r =
      if (!(Pdns.MANAGED_TYPES.contains r.rrtype)) = true then none
      else if (!df.isEmpty && !(df.any (fun d => d.isSuffixOf (trimEndDots r.name)))) = true then
        none
      else if ((r.records.filter (fun rec => !rec.disabled)).map (fun rec => rec.content)).isEmpty
          = true then none
      else some { dns_name := trimEndDots r.name, record_type := r.rrtype,
                  targets := (r.records.filter (fun rec => !rec.disabled)).map
                    (fun rec => rec.content),
                  record_ttl := r.ttl, labels := [], provider_specific := [],
                  set_identifier := [] } := rfl

/-- C5: the catalog's domain filter is a bare string-suffix match on the
dot-stripped RRset name.  For a managed RRset with at least one enabled
record: with a non-empty filter it is kept exactly when some filter entry is
a suffix of the dot-stripped name, and with an empty filter it is always
kept.  Concretely the entry `ample.com` matches the name `example.com`, the
filter `example.com` rejects `other.org` and keeps `host.example.com`, and a
single fetched zone contributes exactly its kept RRsets. -/
theorem list_endpoints_domain_filter (df : List Str) (r : RrSet) (z : Zone) :
    Pdns.list_endpoints [some z] df = z.rrsets.filterMap (Pdns.rrsetEndpoint df)
      ∧ (Pdns.MANAGED_TYPES.contains r.rrtype = true →
          (r.records.filter (fun rec => !rec.disabled)).map (fun rec => rec.content) ≠ [] →
          (df ≠ [] →
              (Pdns.rrsetEndpoint df r).isSome
                = df.any (fun d => d.isSuffixOf (trimEndDots r.name)))
            ∧ (df = [] → (Pdns.rrsetEndpoint df r).isSome = true))
      ∧ (strOf "ample.com").isSuffixOf (trimEndDots (strOf "example.com")) = true
      ∧ Pdns.rrsetEndpoint [strOf "example.com"]
          { name := strOf "other.org.", rrtype := strOf "A", ttl := 60,
            records := [{ content := strOf "1.1.1.1", disabled := false }],
            changetype := none, comments := [] } = none
      ∧ (Pdns.rrsetEndpoint [strOf "example.com"]
          { name := strOf "host.example.com.", rrtype := strOf "A", ttl := 60,
            records := [{ content := strOf "1.1.1.1", disabled := false }],
            changetype := none, comments := [] }).isSome = true := by
  refine ⟨by simp [Pdns.list_endpoints], ?_, by decide, by decide, by decide⟩
  intro hm ht
  have hmn : ¬ ((!(Pdns.MANAGED_TYPES.contains r.rrtype)) = true) := by
    rw [hm]; decide
  have htne :
      ((r.records.filter (fun rec => !rec.disabled)).map (fun rec => rec.content)).isEmpty
        = false := by
    cases hmap : (r.records.filter (fun rec => !rec.disabled)).map (fun rec => rec.content) with
    | nil => exact absurd hmap ht
    | cons a l => rfl
  constructor
  · intro hdf
    have hie : df.isEmpty = false := by
      cases df with
      | nil => exact absurd rfl hdf
      | cons a l => rfl
    cases hA : df.any (fun d => d.isSuffixOf (trimEndDots r.name)) with
    | false =>
      have hc : (!df.isEmpty && !(df.any (fun d => d.isSuffixOf (trimEndDots r.name)))) = true := by
        rw [hie, hA]; rfl
      rw [rrsetEndpoint_eq, if_neg hmn, if_pos hc]
      rfl
    | true =>
      have hc : (!df.isEmpty && !(df.any (fun d => d.isSuffixOf (trimEndDots r.name)))) = false := by
        rw [hie, hA]; rfl
      rw [rrsetEndpoint_eq, if_neg hmn, if_neg (by simp [hc]), if_neg (by simp [htne])]
      rfl
  · intro hdf
    subst hdf
    have hc : (!(List.isEmpty ([] : List Str))
        && !(([] : List Str).any (fun d => d.isSuffixOf (trimEndDots r.name)))) = false := rfl
    rw [rrsetEndpoint_eq, if_neg hmn, if_neg (by simp [hc]), if_neg (by simp [htne])]
    rfl

/-- C5 witness: the filter characterisation at the concrete RRset named
`host.example.com.` and the filter `example.com`. -/
theorem list_endpoints_domain_filter_witness :
    (Pdns.rrsetEndpoint [strOf "example.com"]
        { name := strOf "host.example.com.", rrtype := strOf "A", ttl := 60,
          records := [{ content := strOf "1.1.1.1", disabled := false }],
          changetype := none, comments := [] }).isSome
      = [strOf "example.com"].any
          (fun d => d.isSuffixOf (trimEndDots (strOf "host.example.com."))) :=
  ((list_endpoints_domain_filter [strOf "example.com"]
      { name := strOf "host.example.com.", rrtype := strOf "A", ttl := 60,
        records := [{ content := strOf "1.1.1.1", disabled := false }],
        changetype := none, comments := [] } { rrsets := [] }).2.1
    (by decide) (by decide)).1 (by decide)

/-- C8: reconstructing an endpoint from a backend RRset keeps exactly the
contents of its non-disabled records, in order; an RRset whose records are
all disabled (or absent) yields no endpoint; a managed RRset that passes the
domain filter and has at least one enabled record yields exactly the
endpoint with those contents; and over one zone holding a single A RRset
with one enabled and one disabled record the catalog returns exactly one
endpoint with the one enabled content. -/
theorem rrset_to_endpoint_disabled (df : List Str) (r : RrSet) :
    (∀ ep, Pdns.rrsetEndpoint df r = some ep →
        ep.targets = (r.records.filter (fun rec => !rec.disabled)).map (fun rec => rec.content))
      ∧ ((r.records.filter (fun rec => !rec.disabled)) = [] →
          Pdns.rrsetEndpoint df r = none)
      ∧ (Pdns.MANAGED_TYPES.contains r.rrtype = true →
          (df.isEmpty || df.any (fun d => d.isSuffixOf (trimEndDots r.name))) = true →
          (r.records.filter (fun rec => !rec.disabled)) ≠ [] →
          Pdns.rrsetEndpoint df r
            = some { dns_name := trimEndDots r.name, record_type := r.rrtype,
                     targets := (r.records.filter (fun rec => !rec.disabled)).map
                       (fun rec => rec.content),
                     record_ttl := r.ttl, labels := [], provider_specific := [],
                     set_identifier := [] })
      ∧ Pdns.list_endpoints
          [some { rrsets := [{ name := strOf "www.example.com.", rrtype := strOf "A",
                               ttl := 300,
                               records := [{ content := strOf "1.2.3.4", disabled := false },
                                           { content := strOf "5.6.7.8", disabled := true }],
                               changetype := none, comments := [] }] }] []
        = [{ dns_name := strOf "www.example.com", record_type := strOf "A",
             targets := [strOf "1.2.3.4"], record_ttl := 300, labels := [],
             provider_specific := [], set_identifier := [] }] := by
  refine ⟨?_, ?_, ?_, by decide⟩
  · intro ep h
    rw [rrsetEndpoint_eq] at h
    by_cases h1 : (!(Pdns.MANAGED_TYPES.contains r.rrtype)) = true
    · rw [if_pos h1] at h
      simp at h
    · rw [if_neg h1] at h
      by_cases h2 : (!df.isEmpty && !(df.any (fun d => d.isSuffixOf (trimEndDots r.name)))) = true
      · rw [if_pos h2] at h
        simp at h
      · rw [if_neg h2] at h
        by_cases h3 : ((r.records.filter (fun rec => !rec.disabled)).map
            (fun rec => rec.content)).isEmpty = true
        · rw [if_pos h3] at h
          simp at h
        · rw [if_neg h3] at h
          have he := Option.some.inj h
          rw [← he]
  · intro hfil
    rw [rrsetEndpoint_eq, hfil]
    simp
  · intro hm hf ht
    have hmn : ¬ ((!(Pdns.MANAGED_TYPES.contains r.rrtype)) = true) := by
      rw [hm]; decide
    have h2 : ¬ ((!df.isEmpty && !(df.any (fun d => d.isSuffixOf (trimEndDots r.name)))) = true) := by
      cases hie : df.isEmpty with
      | true => simp [hie]
      | false =>
        rw [hie] at hf
        simp at hf
        simp [hie, hf]
    have htne :
        ((r.records.filter (fun rec => !rec.disabled)).map (fun rec => rec.content)).isEmpty
          = false := by
      cases hmap : r.records.filter (fun rec => !rec.disabled) with
      | nil => exact absurd hmap ht
      | cons a l => rfl
    rw [rrsetEndpoint_eq, if_neg hmn, if_neg h2, htne]
    simp

/-- C8 witness: the exact-endpoint conjunct at the concrete A RRset with one
enabled and one disabled record. -/
theorem rrset_to_endpoint_disabled_witness :
    Pdns.rrsetEndpoint []
        { name := strOf "www.example.com.", rrtype := strOf "A", ttl := 300,
          records := [{ content := strOf "1.2.3.4", disabled := false },
                      { content := strOf "5.6.7.8", disabled := true }],
          changetype := none, comments := [] }
      = some { dns_name := strOf "www.example.com", record_type := strOf "A",
               targets := [strOf "1.2.3.4"], record_ttl := 300, labels := [],
               provider_specific := [], set_identifier := [] } := by
  have h := (rrset_to_endpoint_disabled []
      { name := strOf "www.example.com.", rrtype := strOf "A", ttl := 300,
        records := [{ content := strOf "1.2.3.4", disabled := false },
                    { content := strOf "5.6.7.8", disabled := true }],
        changetype := none, comments := [] }).2.2.1 (by decide) (by decide) (by decide)
  rw [h]
  decide

-- ───────────────────────────────────────────────────────────────────────────
-- Batch change application: per-entry and whole-run lemmas
-- ───────────────────────────────────────────────────────────────────────────

theorem entryOp_spec (zones : Str → Bool) (patchOk : Str → List RrSet → Bool) (ttl : Nat)
    (e : OpKind × Endpoint) (s : Pdns.WriteState) :
    (Handlers.entryOp zones patchOk ttl e s).1.patches
        = s.patches ++ Handlers.entryPatches zones ttl e
      ∧ (Handlers.entryOp zones patchOk ttl e s).2 = Handlers.entryOk zones patchOk ttl e := by
  obtain ⟨k, ep⟩ := e
  cases k with
  | del =>
    cases hz : Pdns.zone_for zones ep.dns_name with
    | none =>
      constructor <;>
        simp [Handlers.entryOp, Pdns.delete, Handlers.entryPatches, Handlers.entryOk, hz]
    | some z =>
      constructor <;>
        simp [Handlers.entryOp, Pdns.delete, Pdns.patch_zone, Handlers.entryPatches,
          Handlers.entryOk, Handlers.entryRrsets, hz]
  | ups =>
    cases hz : Pdns.zone_for zones ep.dns_name with
    | none =>
      constructor <;>
        simp [Handlers.entryOp, Pdns.upsert, Handlers.entryPatches, Handlers.entryOk, hz]
    | some z =>
      constructor <;>
        simp [Handlers.entryOp, Pdns.upsert, Pdns.patch_zone, Handlers.entryPatches,
          Handlers.entryOk, Handlers.entryRrsets, hz]

theorem applyLoop_del_eq (zones : Str → Bool) (patchOk : Str → List RrSet → Bool) (ttl : Nat) :
    ∀ (eps : List Endpoint) (s : Pdns.WriteState),
      Handlers.applyLoop (Pdns.delete zones patchOk) OpKind.del s eps
        = Handlers.runEntries zones patchOk ttl s (eps.map (fun e => (OpKind.del, e))) := by
  intro eps
  induction eps with
  | nil => intro s; rfl
  | cons ep rest ih =>
    intro s
    rw [List.map_cons]
    show (let r := Pdns.delete zones patchOk ep s
          if r.2 then
            let r2 := Handlers.applyLoop (Pdns.delete zones patchOk) OpKind.del r.1 rest
            (r2.1, (OpKind.del, ep) :: r2.2.1, r2.2.2)
          else (r.1, [(OpKind.del, ep)], false))
        = (let r := Handlers.entryOp zones patchOk ttl (OpKind.del, ep) s
           if r.2 then
             let r2 := Handlers.runEntries zones patchOk ttl r.1
               (rest.map (fun e => (OpKind.del, e)))
             (r2.1, (OpKind.del, ep) :: r2.2.1, r2.2.2)
           else (r.1, [(OpKind.del, ep)], false))
    simp only []
    rw [show Handlers.entryOp zones patchOk ttl (OpKind.del, ep) = Pdns.delete zones patchOk ep
      from rfl]
    cases hok : (Pdns.delete zones patchOk ep s).2 with
    | true => simp only [if_pos rfl, ih]
    | false => simp

theorem applyLoop_ups_eq (zones : Str → Bool) (patchOk : Str → List RrSet → Bool) (ttl : Nat) :
    ∀ (eps : List Endpoint) (s : Pdns.WriteState),
      Handlers.applyLoop (fun ep s => Pdns.upsert zones patchOk ep ttl s) OpKind.ups s eps
        = Handlers.runEntries zones patchOk ttl s (eps.map (fun e => (OpKind.ups, e))) := by
  intro eps
  induction eps with
  | nil => intro s; rfl
  | cons ep rest ih =>
    intro s
    rw [List.map_cons]
    show (let r := Pdns.upsert zones patchOk ep ttl s
          if r.2 then
            let r2 := Handlers.applyLoop (fun ep s => Pdns.upsert zones patchOk ep ttl s)
              OpKind.ups r.1 rest
            (r2.1, (OpKind.ups, ep) :: r2.2.1, r2.2.2)
          else (r.1, [(OpKind.ups, ep)], false))
        = (let r := Handlers.entryOp zones patchOk ttl (OpKind.ups, ep) s
           if r.2 then
             let r2 := Handlers.runEntries zones patchOk ttl r.1
               (rest.map (fun e => (OpKind.ups, e)))
             (r2.1, (OpKind.ups, ep) :: r2.2.1, r2.2.2)
           else (r.1, [(OpKind.ups, ep)], false))
    simp only []
    rw [show Handlers.entryOp zones patchOk ttl (OpKind.ups, ep)
      = fun s => Pdns.upsert zones patchOk ep ttl s from rfl]
    cases hok : (Pdns.upsert zones patchOk ep ttl s).2 with
    | true => simp only [if_pos rfl, ih]
    | false => simp

theorem runEntries_eq_cons (zones : Str → Bool) (patchOk : Str → List RrSet → Bool) (ttl : Nat)
    (e : OpKind × Endpoint) (rest : List (OpKind × Endpoint)) (s : Pdns.WriteState) :
    Handlers.runEntries zones patchOk ttl s (e :: rest)
      = if (Handlers.entryOp zones patchOk ttl e s).2 then
          ((Handlers.runEntries zones patchOk ttl (Handlers.entryOp zones patchOk ttl e s).1 rest).1,
           e :: (Handlers.runEntries zones patchOk ttl
               (Handlers.entryOp zones patchOk ttl e s).1 rest).2.1,
           (Handlers.runEntries zones patchOk ttl
               (Handlers.entryOp zones patchOk ttl e s).1 rest).2.2)
        else ((Handlers.entryOp zones patchOk ttl e s).1, [e], false) := rfl

theorem ite_cond_true {a : Sort u_1} (x y : a) : (if (true : Bool) = true then x else y) = x := rfl

theorem ite_cond_false {a : Sort u_1} (x y : a) : (if (false : Bool) = true then x else y) = y := rfl

theorem runEntries_cons_ok {zones : Str → Bool} {patchOk : Str → List RrSet → Bool} {ttl : Nat}
    {e : OpKind × Endpoint} {s : Pdns.WriteState} (rest : List (OpKind × Endpoint))
    (hok : (Handlers.entryOp zones patchOk ttl e s).2 = true) :
    Handlers.runEntries zones patchOk ttl s (e :: rest)
      = ((Handlers.runEntries zones patchOk ttl
            (Handlers.entryOp zones patchOk ttl e s).1 rest).1,
         e :: (Handlers.runEntries zones patchOk ttl
             (Handlers.entryOp zones patchOk ttl e s).1 rest).2.1,
         (Handlers.runEntries zones patchOk ttl
             (Handlers.entryOp zones patchOk ttl e s).1 rest).2.2) := by
  rw [runEntries_eq_cons, hok, ite_cond_true]

theorem runEntries_cons_fail {zones : Str → Bool} {patchOk : Str → List RrSet → Bool} {ttl : Nat}
    {e : OpKind × Endpoint} {s : Pdns.WriteState} (rest : List (OpKind × Endpoint))
    (hok : (Handlers.entryOp zones patchOk ttl e s).2 = false) :
    Handlers.runEntries zones patchOk ttl s (e :: rest)
      = ((Handlers.entryOp zones patchOk ttl e s).1, [e], false) := by
  rw [runEntries_eq_cons, hok, ite_cond_false]

theorem runEntries_append (zones : Str → Bool) (patchOk : Str → List RrSet → Bool) (ttl : Nat) :
    ∀ (l1 l2 : List (OpKind × Endpoint)) (s : Pdns.WriteState),
      Handlers.runEntries zones patchOk ttl s (l1 ++ l2)
        = if (Handlers.runEntries zones patchOk ttl s l1).2.2 then
            ((Handlers.runEntries zones patchOk ttl
                (Handlers.runEntries zones patchOk ttl s l1).1 l2).1,
             (Handlers.runEntries zones patchOk ttl s l1).2.1
               ++ (Handlers.runEntries zones patchOk ttl
                   (Handlers.runEntries zones patchOk ttl s l1).1 l2).2.1,
             (Handlers.runEntries zones patchOk ttl
                 (Handlers.runEntries zones patchOk ttl s l1).1 l2).2.2)
          else Handlers.runEntries zones patchOk ttl s l1 := by
  intro l1
  induction l1 with
  | nil =>
    intro l2 s
    simp [Handlers.runEntries]
  | cons e l1 ih =>
    intro l2 s
    rw [List.cons_append]
    cases hok : (Handlers.entryOp zones patchOk ttl e s).2 with
    | true =>
      rw [runEntries_cons_ok (l1 ++ l2) hok, runEntries_cons_ok l1 hok, ih l2]
      cases hok2 : (Handlers.runEntries zones patchOk ttl
          (Handlers.entryOp zones patchOk ttl e s).1 l1).2.2 with
      | true => simp [hok2]
      | false => simp [hok2]
    | false =>
      rw [runEntries_cons_fail (l1 ++ l2) hok, runEntries_cons_fail l1 hok]
      simp

theorem runEntries_success (zones : Str → Bool) (patchOk : Str → List RrSet → Bool) (ttl : Nat) :
    ∀ (l : List (OpKind × Endpoint)) (s : Pdns.WriteState),
      (Handlers.runEntries zones patchOk ttl s l).2.2 = true →
        (Handlers.runEntries zones patchOk ttl s l).2.1 = l := by
  intro l
  induction l with
  | nil => intro s _; rfl
  | cons e rest ih =>
    intro s h
    cases hok : (Handlers.entryOp zones patchOk ttl e s).2 with
    | true =>
      rw [runEntries_cons_ok rest hok] at h ⊢
      have h2 : (Handlers.runEntries zones patchOk ttl
          (Handlers.entryOp zones patchOk ttl e s).1 rest).2.2 = true := h
      show e :: (Handlers.runEntries zones patchOk ttl
          (Handlers.entryOp zones patchOk ttl e s).1 rest).2.1 = e :: rest
      rw [ih _ h2]
    | false =>
      rw [runEntries_cons_fail rest hok] at h
      simp at h

theorem runEntries_trace_initial (zones : Str → Bool) (patchOk : Str → List RrSet → Bool)
    (ttl : Nat) :
    ∀ (l : List (OpKind × Endpoint)) (s : Pdns.WriteState),
      ∃ rest, (Handlers.runEntries zones patchOk ttl s l).2.1 ++ rest = l := by
  intro l
  induction l with
  | nil => intro s; exact ⟨[], rfl⟩
  | cons e tail ih =>
    intro s
    cases hok : (Handlers.entryOp zones patchOk ttl e s).2 with
    | true =>
      rw [runEntries_cons_ok tail hok]
      obtain ⟨rest, hrest⟩ := ih (Handlers.entryOp zones patchOk ttl e s).1
      refine ⟨rest, ?_⟩
      show (e :: (Handlers.runEntries zones patchOk ttl
          (Handlers.entryOp zones patchOk ttl e s).1 tail).2.1) ++ rest = e :: tail
      rw [List.cons_append, hrest]
    | false =>
      rw [runEntries_cons_fail tail hok]
      exact ⟨tail, rfl⟩

theorem runEntries_failure (zones : Str → Bool) (patchOk : Str → List RrSet → Bool) (ttl : Nat) :
    ∀ (l : List (OpKind × Endpoint)) (s : Pdns.WriteState),
      (Handlers.runEntries zones patchOk ttl s l).2.2 = false →
        ∃ pre e post, l = pre ++ e :: post
          ∧ (Handlers.runEntries zones patchOk ttl s l).2.1 = pre ++ [e]
          ∧ (∀ x ∈ pre, Handlers.entryOk zones patchOk ttl x = true)
          ∧ Handlers.entryOk zones patchOk ttl e = false := by
  intro l
  induction l with
  | nil =>
    intro s h
    simp [Handlers.runEntries] at h
  | cons e tail ih =>
    intro s h
    cases hok : (Handlers.entryOp zones patchOk ttl e s).2 with
    | true =>
      rw [runEntries_cons_ok tail hok] at h ⊢
      have h2 : (Handlers.runEntries zones patchOk ttl
          (Handlers.entryOp zones patchOk ttl e s).1 tail).2.2 = false := h
      obtain ⟨pre, e2, post, ha, hb, hc, hd⟩ := ih _ h2
      refine ⟨e :: pre, e2, post, by rw [List.cons_append, ha], ?_, ?_, hd⟩
      · show e :: (Handlers.runEntries zones patchOk ttl
            (Handlers.entryOp zones patchOk ttl e s).1 tail).2.1 = (e :: pre) ++ [e2]
        rw [hb, List.cons_append]
      · intro x hx
        rcases List.mem_cons.mp hx with hx | hx
        · rw [hx, ← (entryOp_spec zones patchOk ttl e s).2]
          exact hok
        · exact hc x hx
    | false =>
      refine ⟨[], e, tail, rfl, ?_, by intro x hx; simp at hx, ?_⟩
      · rw [runEntries_cons_fail tail hok]
        rfl
      · rw [← (entryOp_spec zones patchOk ttl e s).2]
        exact hok

theorem runEntries_patches (zones : Str → Bool) (patchOk : Str → List RrSet → Bool) (ttl : Nat) :
    ∀ (l : List (OpKind × Endpoint)) (s : Pdns.WriteState),
      (Handlers.runEntries zones patchOk ttl s l).1.patches
        = s.patches ++ ((Handlers.runEntries zones patchOk ttl s l).2.1).flatMap
            (Handlers.entryPatches zones ttl) := by
  intro l
  induction l with
  | nil => intro s; simp [Handlers.runEntries]
  | cons e tail ih =>
    intro s
    cases hok : (Handlers.entryOp zones patchOk ttl e s).2 with
    | true =>
      rw [runEntries_cons_ok tail hok]
      show (Handlers.runEntries zones patchOk ttl
            (Handlers.entryOp zones patchOk ttl e s).1 tail).1.patches
          = s.patches ++ (e :: (Handlers.runEntries zones patchOk ttl
              (Handlers.entryOp zones patchOk ttl e s).1 tail).2.1).flatMap
              (Handlers.entryPatches zones ttl)
      rw [ih, (entryOp_spec zones patchOk ttl e s).1, List.flatMap_cons, ← List.append_assoc]
    | false =>
      rw [runEntries_cons_fail tail hok]
      show (Handlers.entryOp zones patchOk ttl e s).1.patches
          = s.patches ++ ([e].flatMap (Handlers.entryPatches zones ttl))
      rw [(entryOp_spec zones patchOk ttl e s).1]
      simp

theorem apply_changes_eq_runEntries (zones : Str → Bool) (patchOk : Str → List RrSet → Bool)
    (ttl : Nat) (chs : Changes) :
    Handlers.apply_changes zones patchOk ttl chs
      = Handlers.runEntries zones patchOk ttl { patches := [] } (Handlers.planned chs) := by
  rw [Handlers.planned, runEntries_append, runEntries_append, runEntries_append,
    ← applyLoop_del_eq zones patchOk ttl, ← applyLoop_del_eq zones patchOk ttl,
    ← applyLoop_ups_eq zones patchOk ttl, ← applyLoop_ups_eq zones patchOk ttl]
  show Handlers.apply_changes zones patchOk ttl chs = _
  unfold Handlers.apply_changes
  cases h1 : (Handlers.applyLoop (Pdns.delete zones patchOk) OpKind.del
      { patches := [] } chs.delete).2.2 with
  | false =>
    simp [h1]
    rw [← h1]
  | true =>
    simp only [h1, if_pos rfl]
    cases h2 : (Handlers.applyLoop (Pdns.delete zones patchOk) OpKind.del
        (Handlers.applyLoop (Pdns.delete zones patchOk) OpKind.del
          { patches := [] } chs.delete).1 chs.update_old).2.2 with
    | false => simp [h2]
    | true =>
      simp only [h2, if_pos rfl]
      cases h3 : (Handlers.applyLoop (fun ep s => Pdns.upsert zones patchOk ep ttl s) OpKind.ups
          (Handlers.applyLoop (Pdns.delete zones patchOk) OpKind.del
            (Handlers.applyLoop (Pdns.delete zones patchOk) OpKind.del
              { patches := [] } chs.delete).1 chs.update_old).1 chs.update_new).2.2 with
      | false => simp [h3]
      | true => simp [h3]

/-- C3: batch change application processes the four changeset lists in the
fixed order delete, updateOld, updateNew, create: the processed entries are
always an initial segment of that planned order; on success all entries ran;
on failure there is a first entry whose zone resolution or PATCH fails, all
earlier entries succeeded, that entry is the last one processed and nothing
after it is attempted; and the PATCHes actually issued are exactly those of
the processed entries, in order — nothing is rolled back.  The failure is
surfaced as the single batch-level error flag. -/
theorem apply_changes_fail_fast (zones : Str → Bool) (patchOk : Str → List RrSet → Bool)
    (ttl : Nat) (chs : Changes) :
    (∃ rest, (Handlers.apply_changes zones patchOk ttl chs).2.1 ++ rest = Handlers.planned chs)
      ∧ ((Handlers.apply_changes zones patchOk ttl chs).2.2 = true →
          (Handlers.apply_changes zones patchOk ttl chs).2.1 = Handlers.planned chs)
      ∧ ((Handlers.apply_changes zones patchOk ttl chs).2.2 = false →
          ∃ pre e post, Handlers.planned chs = pre ++ e :: post
            ∧ (Handlers.apply_changes zones patchOk ttl chs).2.1 = pre ++ [e]
            ∧ (∀ x ∈ pre, Handlers.entryOk zones patchOk ttl x = true)
            ∧ Handlers.entryOk zones patchOk ttl e = false)
      ∧ (Handlers.apply_changes zones patchOk ttl chs).1.patches
          = ((Handlers.apply_changes zones patchOk ttl chs).2.1).flatMap
              (Handlers.entryPatches zones ttl) := by
  rw [apply_changes_eq_runEntries]
  refine ⟨runEntries_trace_initial zones patchOk ttl _ _,
    runEntries_success zones patchOk ttl _ _,
    ?_, ?_⟩
  · intro h
    obtain ⟨pre, e, post, h1, h2, h3, h4⟩ := runEntries_failure zones patchOk ttl _ _ h
    exact ⟨pre, e, post, h1, h2, h3, h4⟩
  · rw [runEntries_patches]
    rfl




/-- C3 witness: on a changeset with a failing delete entry and a valid
create entry, only the delete entry is processed, no PATCH is issued, and
the failure conjunct of the theorem produces the failing split. -/
theorem apply_changes_fail_fast_witness :
    (Handlers.apply_changes zonesExample (fun _ _ => true) 300 chsFail).2.1
        = [(OpKind.del, epSingleLabel)]
      ∧ (Handlers.apply_changes zonesExample (fun _ _ => true) 300 chsFail).1.patches = []
      ∧ ∃ pre e post, Handlers.planned chsFail = pre ++ e :: post
          ∧ (Handlers.apply_changes zonesExample (fun _ _ => true) 300 chsFail).2.1 = pre ++ [e]
          ∧ (∀ x ∈ pre, Handlers.entryOk zonesExample (fun _ _ => true) 300 x = true)
          ∧ Handlers.entryOk zonesExample (fun _ _ => true) 300 e = false :=
  ⟨by decide, by decide,
    (apply_changes_fail_fast zonesExample (fun _ _ => true) 300 chsFail).2.2.1 (by decide)⟩

theorem entryPatches_shape (zones : Str → Bool) (ttl : Nat) (e : OpKind × Endpoint)
    (pr : Str × List RrSet) (h : pr ∈ Handlers.entryPatches zones ttl e) :
    pr.2 = Handlers.entryRrsets ttl e := by
  unfold Handlers.entryPatches at h
  cases hz : Pdns.zone_for zones e.2.dns_name with
  | none =>
    rw [hz] at h
    simp at h
  | some z =>
    rw [hz] at h
    simp at h
    rw [h]

theorem entryRrsets_length (ttl : Nat) (e : OpKind × Endpoint) :
    (Handlers.entryRrsets ttl e).length = 1 := by
  obtain ⟨k, ep⟩ := e
  cases k <;> rfl

/-- C9: each delete or updateOld entry whose zone resolves is realised as a
single PATCH carrying exactly one RRset with changetype DELETE, an empty
record list and the endpoint's FQDN-ensured name and type; each updateNew or
create entry as a single PATCH carrying exactly the one REPLACE RRset of the
endpoint-to-RRset conversion; across a whole batch the issued PATCHes are
exactly one per processed entry with a resolved zone, so every PATCH body
carries exactly one RRset — endpoints are never batched together. -/
theorem per_entry_single_rrset_patch (zones : Str → Bool) (patchOk : Str → List RrSet → Bool)
    (ttl : Nat) (chs : Changes) (ep : Endpoint) (s : Pdns.WriteState) :
    (∀ z, Pdns.zone_for zones ep.dns_name = some z →
        (Pdns.delete zones patchOk ep s).1.patches
            = s.patches ++ [(z, [Pdns.deleteRrset ep])]
          ∧ (Pdns.upsert zones patchOk ep ttl s).1.patches
            = s.patches ++ [(z, [Pdns.build_rrset ep ttl (strOf "REPLACE")])])
      ∧ Pdns.deleteRrset ep
          = { name := Pdns.ensure_fqdn ep.dns_name, rrtype := ep.record_type, ttl := 0,
              records := [], changetype := some (strOf "DELETE"), comments := [] }
      ∧ Handlers.entryRrsets ttl (OpKind.del, ep) = [Pdns.deleteRrset ep]
      ∧ Handlers.entryRrsets ttl (OpKind.ups, ep) = [Pdns.build_rrset ep ttl (strOf "REPLACE")]
      ∧ (Handlers.apply_changes zones patchOk ttl chs).1.patches
          = ((Handlers.apply_changes zones patchOk ttl chs).2.1).flatMap
              (Handlers.entryPatches zones ttl)
      ∧ (∀ pr ∈ (Handlers.apply_changes zones patchOk ttl chs).1.patches,
          pr.2.length = 1) := by
  have hp : (Handlers.apply_changes zones patchOk ttl chs).1.patches
      = ((Handlers.apply_changes zones patchOk ttl chs).2.1).flatMap
          (Handlers.entryPatches zones ttl) := by
    rw [apply_changes_eq_runEntries, runEntries_patches]
    rfl
  refine ⟨?_, rfl, rfl, rfl, hp, ?_⟩
  · intro z hz
    constructor <;> simp [Pdns.delete, Pdns.upsert, Pdns.patch_zone, hz]
  · intro pr hpr
    rw [hp] at hpr
    obtain ⟨e, he, hpe⟩ := List.mem_flatMap.mp hpr
    rw [entryPatches_shape zones ttl e pr hpe]
    exact entryRrsets_length ttl e

/-- C9 witness: the per-entry PATCH shapes at a concrete endpoint whose name
resolves to the zone `example.com.`. -/
theorem per_entry_single_rrset_patch_witness :
    (Pdns.delete zonesExample (fun _ _ => true) epCreateY { patches := [] }).1.patches
        = [(strOf "example.com.", [Pdns.deleteRrset epCreateY])]
      ∧ (Pdns.upsert zonesExample (fun _ _ => true) epCreateY 300 { patches := [] }).1.patches
        = [(strOf "example.com.", [Pdns.build_rrset epCreateY 300 (strOf "REPLACE")])] := by
  have h := (per_entry_single_rrset_patch zonesExample (fun _ _ => true) 300
      { create := [], update_old := [], update_new := [], delete := [] } epCreateY
      { patches := [] }).1 (strOf "example.com.") (by decide)
  exact ⟨h.1, h.2⟩

-- ───────────────────────────────────────────────────────────────────────────
-- C4: zone resolution
-- ───────────────────────────────────────────────────────────────────────────

theorem zone_for_eq (zones : Str → Bool) (fqdn : Str) :
    Pdns.zone_for zones fqdn
      = ((Pdns.loopRange 1 ((splitDot (trimEndDots fqdn)).length - 1)).map
          (fun i => joinDots ((splitDot (trimEndDots fqdn)).drop i) ++ ['.'])).find? zones :=
  rfl

theorem find?_map_loopRange_none {p : Str → Bool} {f : Nat → Str} (k : Nat) :
    ∀ s, (((Pdns.loopRange s k).map f).find? p = none
      ↔ ∀ i, s ≤ i → i < s + k → p (f i) = false) := by
  induction k with
  | zero =>
    intro s
    constructor
    · intro _ i h1 h2
      omega
    · intro _
      rfl
  | succ k ih =>
    intro s
    cases hpa : p (f s) with
    | true =>
      constructor
      · intro h
        rw [show Pdns.loopRange s (k + 1) = s :: Pdns.loopRange (s + 1) k from rfl,
          List.map_cons, List.find?_cons_of_pos _ hpa] at h
        exact absurd h (by simp)
      · intro h
        have := h s (Nat.le_refl s) (by omega)
        rw [hpa] at this
        exact absurd this (by simp)
    | false =>
      rw [show Pdns.loopRange s (k + 1) = s :: Pdns.loopRange (s + 1) k from rfl,
        List.map_cons, List.find?_cons_of_neg _ (by rw [hpa]; simp), ih (s + 1)]
      constructor
      · intro h i h1 h2
        rcases Nat.eq_or_lt_of_le h1 with he | hl
        · rw [← he]
          exact hpa
        · exact h i hl (by omega)
      · intro h i h1 h2
        exact h i (by omega) (by omega)

theorem find?_map_loopRange_some {p : Str → Bool} {f : Nat → Str} (k : Nat) :
    ∀ s z, ((Pdns.loopRange s k).map f).find? p = some z →
      ∃ i, s ≤ i ∧ i < s + k ∧ z = f i ∧ p (f i) = true
        ∧ ∀ j, s ≤ j → j < i → p (f j) = false := by
  induction k with
  | zero =>
    intro s z h
    exact absurd h (by simp [Pdns.loopRange])
  | succ k ih =>
    intro s z h
    rw [show Pdns.loopRange s (k + 1) = s :: Pdns.loopRange (s + 1) k from rfl,
      List.map_cons] at h
    cases hpa : p (f s) with
    | true =>
      rw [List.find?_cons_of_pos _ hpa] at h
      have hz := Option.some.inj h
      exact ⟨s, Nat.le_refl s, by omega, hz.symm, hpa, fun j h1 h2 => by omega⟩
    | false =>
      rw [List.find?_cons_of_neg _ (by rw [hpa]; simp)] at h
      obtain ⟨i, h1, h2, h3, h4, h5⟩ := ih (s + 1) z h
      refine ⟨i, by omega, by omega, h3, h4, ?_⟩
      intro j hj1 hj2
      rcases Nat.eq_or_lt_of_le hj1 with he | hl
      · rw [← he]
        exact hpa
      · exact h5 j hl hj2

/-- C4: zone resolution over the backend-zone oracle walks the label
suffixes of the dot-stripped name: it never tries the full name (index 0)
nor the root, returns `none` exactly when no candidate with index between 1
and the label count (exclusive) is a known zone, and any answer is the
first such candidate the backend knows; a name with at most one label (in
particular any single-label name) always fails. -/
theorem zone_for_walk (zones : Str → Bool) (fqdn : Str) :
    ((splitDot (trimEndDots fqdn)).length ≤ 1 → Pdns.zone_for zones fqdn = none)
      ∧ (Pdns.zone_for zones fqdn = none ↔
          ∀ i, 1 ≤ i → i < (splitDot (trimEndDots fqdn)).length →
            zones (joinDots ((splitDot (trimEndDots fqdn)).drop i) ++ ['.']) = false)
      ∧ (∀ z, Pdns.zone_for zones fqdn = some z →
          ∃ i, 1 ≤ i ∧ i < (splitDot (trimEndDots fqdn)).length
            ∧ z = joinDots ((splitDot (trimEndDots fqdn)).drop i) ++ ['.']
            ∧ zones z = true
            ∧ ∀ j, 1 ≤ j → j < i →
                zones (joinDots ((splitDot (trimEndDots fqdn)).drop j) ++ ['.']) = false) := by
  refine ⟨?_, ?_, ?_⟩
  · intro h
    have hz : (splitDot (trimEndDots fqdn)).length - 1 = 0 := by omega
    rw [zone_for_eq, hz]
    rfl
  · rw [zone_for_eq, find?_map_loopRange_none]
    constructor
    · intro h i h1 h2
      exact h i h1 (by omega)
    · intro h i h1 h2
      exact h i h1 (by omega)
  · intro z h
    rw [zone_for_eq] at h
    obtain ⟨i, h1, h2, h3, h4, h5⟩ := find?_map_loopRange_some _ _ _ h
    exact ⟨i, h1, by omega, h3, by rw [h3]; exact h4, fun j hj1 hj2 => h5 j hj1 hj2⟩


/-- C4 witness: resolution fails on the single-label name `localhost`, and
over the backend zones `example.com.` and `com.` the name
`a.b.example.com.` resolves to `example.com.`, the first matching ancestor
in walk order. -/
theorem zone_for_walk_witness :
    (splitDot (trimEndDots (strOf "localhost"))).length ≤ 1
      ∧ Pdns.zone_for zonesExample (strOf "localhost") = none
      ∧ Pdns.zone_for zonesExample (strOf "a.b.example.com.") = some (strOf "example.com.") :=
  ⟨by decide, (zone_for_walk zonesExample (strOf "localhost")).1 (by decide), by decide⟩

-- ───────────────────────────────────────────────────────────────────────────
-- C2 / C10: the adjust-endpoints rewrite
-- ───────────────────────────────────────────────────────────────────────────


/-- C2: counterexample — an HTTPS endpoint carrying a provider-specific
entry named exactly `pdns-https-target` does not get its targets replaced by
that entry's validated value: the code matches on the key
`webhook/pdns-https-target`, so the entry is ignored and the existing target
is merely given a leading priority instead. -/
theorem adjust_bare_annotation_key_cex :
    epBareKey.record_type = strOf "HTTPS"
      ∧ epBareKey.provider_specific
          = [{ name := strOf "pdns-https-target", value := strOf "1 . alpn=h2" }]
      ∧ ¬ ((Handlers.adjust_endpoints [epBareKey]).map (fun e => e.targets)
            = [[Handlers.validate_https_target (strOf "1 . alpn=h2") epBareKey.dns_name]]) := by
  refine ⟨rfl, rfl, ?_⟩
  decide

/-- C2 (amended): for every endpoint of record type HTTPS carrying a
provider-specific entry named `webhook/pdns-https-target`, adjust-endpoints
replaces the endpoint's targets with the single validated value of that
entry, overriding any existing targets. -/
theorem adjust_https_annotation_override (ep : Endpoint) (v : Str) (eps : List Endpoint)
    (h1 : ep.record_type = strOf "HTTPS")
    (h2 : Handlers.find_provider_specific ep Handlers.HTTPS_TARGET_ANNOTATION = some v) :
    (Handlers.adjustEndpoint ep).targets = [Handlers.validate_https_target v ep.dns_name]
      ∧ Handlers.adjust_endpoints (ep :: eps)
          = Handlers.adjustEndpoint ep :: Handlers.adjust_endpoints eps := by
  constructor
  · unfold Handlers.adjustEndpoint
    rw [if_neg (fun hc => hc h1), h2]
  · rfl


/-- C2 witness: the amended theorem at a concrete HTTPS endpoint whose entry
is named `webhook/pdns-https-target`. -/
theorem adjust_https_annotation_override_witness :
    (Handlers.adjustEndpoint epWebhookKey).targets
      = [Handlers.validate_https_target (strOf "1 . alpn=h2") epWebhookKey.dns_name] :=
  (adjust_https_annotation_override epWebhookKey (strOf "1 . alpn=h2") []
    (by decide) (by decide)).1

/-- Every branch of the per-endpoint rewrite either returns the endpoint or
only updates its targets. -/
theorem adjustEndpoint_shape (ep : Endpoint) :
    Handlers.adjustEndpoint ep = ep
      ∨ ∃ ts, Handlers.adjustEndpoint ep = { ep with targets := ts } := by
  unfold Handlers.adjustEndpoint
  by_cases h : ep.record_type ≠ strOf "HTTPS"
  · left
    rw [if_pos h]
  · rw [if_neg h]
    rcases hf : Handlers.find_provider_specific ep Handlers.HTTPS_TARGET_ANNOTATION with _ | v
    · by_cases ht : ep.targets.isEmpty = true
      · left
        rw [if_pos ht]
      · right
        rw [if_neg ht]
        exact ⟨_, rfl⟩
    · right
      exact ⟨_, rfl⟩

/-- C10: adjust-endpoints is a pure per-element rewrite: it maps each
endpoint in place, so the output has the same length and order; a non-HTTPS
endpoint is returned unchanged; on any endpoint only the targets field can
change (name, type, TTL, labels, provider-specific entries and set
identifier are preserved); and an HTTPS endpoint with no matching
provider-specific entry and no targets is returned unchanged. -/
theorem adjust_endpoints_frame (eps : List Endpoint) (ep : Endpoint) :
    Handlers.adjust_endpoints eps = eps.map Handlers.adjustEndpoint
      ∧ (Handlers.adjust_endpoints eps).length = eps.length
      ∧ (ep.record_type ≠ strOf "HTTPS" → Handlers.adjustEndpoint ep = ep)
      ∧ (Handlers.adjustEndpoint ep).dns_name = ep.dns_name
      ∧ (Handlers.adjustEndpoint ep).record_type = ep.record_type
      ∧ (Handlers.adjustEndpoint ep).record_ttl = ep.record_ttl
      ∧ (Handlers.adjustEndpoint ep).labels = ep.labels
      ∧ (Handlers.adjustEndpoint ep).provider_specific = ep.provider_specific
      ∧ (Handlers.adjustEndpoint ep).set_identifier = ep.set_identifier
      ∧ (Handlers.find_provider_specific ep Handlers.HTTPS_TARGET_ANNOTATION = none →
          ep.targets = [] → Handlers.adjustEndpoint ep = ep) := by
  have hshape := adjustEndpoint_shape ep
  refine ⟨rfl, by simp [Handlers.adjust_endpoints], ?_, ?_, ?_, ?_, ?_, ?_, ?_, ?_⟩
  · intro h
    unfold Handlers.adjustEndpoint
    rw [if_pos h]
  · rcases hshape with h | ⟨ts, h⟩ <;> rw [h]
  · rcases hshape with h | ⟨ts, h⟩ <;> rw [h]
  · rcases hshape with h | ⟨ts, h⟩ <;> rw [h]
  · rcases hshape with h | ⟨ts, h⟩ <;> rw [h]
  · rcases hshape with h | ⟨ts, h⟩ <;> rw [h]
  · rcases hshape with h | ⟨ts, h⟩ <;> rw [h]
  · intro hf ht
    unfold Handlers.adjustEndpoint
    by_cases h : ep.record_type ≠ strOf "HTTPS"
    · rw [if_pos h]
    · rw [if_neg h, hf, if_pos (by rw [ht]; rfl)]

/-- C10 witness: the frame theorem at concrete endpoints — a non-HTTPS
endpoint passes through adjust-endpoints unchanged, and so does an HTTPS
endpoint with no matching entry and no targets. -/
theorem adjust_endpoints_frame_witness :
    Handlers.adjustEndpoint
        { dns_name := strOf "a.example.com", record_type := strOf "A",
          targets := [strOf "1.2.3.4"], record_ttl := 0, labels := [],
          provider_specific := [], set_identifier := [] }
      = { dns_name := strOf "a.example.com", record_type := strOf "A",
          targets := [strOf "1.2.3.4"], record_ttl := 0, labels := [],
          provider_specific := [], set_identifier := [] }
      ∧ Handlers.adjustEndpoint
          { dns_name := strOf "h.example.com", record_type := strOf "HTTPS",
            targets := [], record_ttl := 0, labels := [],
            provider_specific := [], set_identifier := [] }
        = { dns_name := strOf "h.example.com", record_type := strOf "HTTPS",
            targets := [], record_ttl := 0, labels := [],
            provider_specific := [], set_identifier := [] } :=
  ⟨(adjust_endpoints_frame []
      { dns_name := strOf "a.example.com", record_type := strOf "A",
        targets := [strOf "1.2.3.4"], record_ttl := 0, labels := [],
        provider_specific := [], set_identifier := [] }).2.2.1 (by decide),
    (adjust_endpoints_frame []
      { dns_name := strOf "h.example.com", record_type := strOf "HTTPS",
        targets := [], record_ttl := 0, labels := [],
        provider_specific := [], set_identifier := [] }).2.2.2.2.2.2.2.2.2
      (by decide) rfl⟩

/-- C7 witness: the normaliser at concrete inputs — identity on an A target,
and a CNAME target without a trailing dot gets one appended. -/
theorem normalise_target_cases_witness :
    Pdns.normalise_target (strOf "A") (strOf "1.2.3.4") = strOf "1.2.3.4"
      ∧ Pdns.normalise_target (strOf "CNAME") (strOf "lb.domain.com")
          = strOf "lb.domain.com" ++ ['.'] :=
  ⟨(normalise_target_cases (strOf "A") (strOf "1.2.3.4")).1 (Or.inl rfl),
    ((normalise_target_cases (strOf "CNAME") (strOf "lb.domain.com")).2
        (by decide) (by decide) (by decide) (by decide)).2.2.1 (by decide)⟩
